import Mathlib

/-!
Shallow embedding of the core of `range_repair.py` and `repair_failed_ranges.py`
(smartlyio/cassandra_range_repair): token formatting, the sub-range generator,
preceding-token lookup, the exponential-backoff retryer, the repair-status
ledger, the failed-range résumé operation, and the exclusion classifier.

Python strings are modelled as `List Char` (Lean's `String` order is the same
lexicographic order on the underlying character list, but `List Char` also
evaluates inside the kernel).  Python `int` is modelled as `Int`; the sleep
durations of the retryer (Python floats that are only ever multiplied) are
modelled as rationals.  Timestamps (`datetime.now().isoformat()`) are modelled
as readings of a monotone counter threaded through the code.  A Python
generator is modelled as the pair of the list of values it yields and a flag
recording whether iterating past the last yield raises an exception.
-/

/-- Python strings, modelled as their character lists. -/
abbrev Str := List Char

/-! ## Token formatting (`TokenContainer.format`, `check_for_MD5_tokens`) -/

/-- The `w` low decimal digits of `n`, most significant first.  For `n < 10 ^ w`
this is exactly the `w`-character zero-padded decimal numeral of `n`. -/
def padDigits : Nat → Nat → List Char
  | 0, _ => []
  | w + 1, n => Nat.digitChar (n / 10 ^ w) :: padDigits w (n % 10 ^ w)

/-- Python zero-padding of a natural number to width `w` (the digit part of the
format specs `"{0:+021d}"` and `"{0:039d}"`): numbers of at most `w` digits are
zero-padded to exactly `w` characters, larger numbers are printed unpadded. -/
def pyZeroPad (w n : Nat) : List Char :=
  if n < 10 ^ w then padDigits w n else Nat.toDigits 10 n

/-- `TokenContainer.format` with the default Murmur3 template `"{0:+021d}"`:
a sign character followed by the absolute value zero-padded to 20 digits
(total width 21 for every token of the 64-bit space). -/
def format64 (v : Int) : Str :=
  (if v < 0 then '-' else '+') :: pyZeroPad 20 v.natAbs

/-- `TokenContainer.format` with the random-partitioner template `"{0:039d}"`
installed by `check_for_MD5_tokens` (width 39, no forced sign). -/
def format127 (v : Int) : Str :=
  if v < 0 then '-' :: pyZeroPad 38 v.natAbs else pyZeroPad 39 v.natAbs

/-- `TokenContainer.RANGE_MIN` for the Murmur3 (64-bit signed) space. -/
def RANGE_MIN64 : Int := -(2 ^ 63)

/-- `TokenContainer.RANGE_MAX` for the Murmur3 (64-bit signed) space. -/
def RANGE_MAX64 : Int := 2 ^ 63 - 1

/-- `TokenContainer.RANGE_MIN` after `check_for_MD5_tokens` switches spaces. -/
def RANGE_MIN127 : Int := 0

/-- `TokenContainer.RANGE_MAX` after `check_for_MD5_tokens` switches spaces. -/
def RANGE_MAX127 : Int := 2 ^ 127 - 1

/-! ## The sub-range generator (`TokenContainer.sub_range_generator`) -/

/-- Python `range(start, stop, step)` for the uses in `sub_range_generator`:
with a positive step and `start < stop` it lists
`start, start + step, …` up to but excluding `stop`; otherwise it is empty
(the generator only ever calls it with a positive step). -/
def pyRange (start stop step : Int) : List Int :=
  if 0 < step ∧ start < stop then
    (List.range ((stop - start + step - 1) / step).toNat).map fun j => start + step * j
  else []

/-- The pairwise emission loop ending `sub_range_generator`:
`while len(step_list) > 1: step += 1; yield step_list[0], step_list[1], step;
step_list.pop(0)`, starting from step counter `step`. -/
def emitPairs : List Str → Nat → List (Str × Str × Nat)
  | a :: b :: rest, step => (a, b, step + 1) :: emitPairs (b :: rest) (step + 1)
  | _, _ => []

/-- Observable behaviour of fully iterating a Python generator: the values it
yields, and whether requesting the next value after the last yield raises an
exception instead of terminating the iteration normally. -/
structure GenResult where
  yields : List (Str × Str × Nat)
  raises : Bool
  deriving Repr, DecidableEq

/-- `TokenContainer.sub_range_generator(start, stop, steps)`.  The container's
`format`, `RANGE_MIN` and `RANGE_MAX` are parameters (they are class constants
selected by `check_for_MD5_tokens`).  In the two single-yield branches the
local `step_list` is never assigned, so after the single yield the line
`step_list.append(self.format(stop))` raises `UnboundLocalError`; this is
recorded as `raises := true`.  Python `//` is floor division, hence `Int.fdiv`.
The slice `[0:steps]` is `List.take steps.toNat` (for the negative `steps`
that would slice from the end, the sliced list is empty in both readings). -/
def sub_range_generator (fmt : Int → Str) (RMIN RMAX : Int)
    (start stop steps : Int) : GenResult :=
  if stop > start then
    if start + steps < stop + 1 then
      let step_increment := (stop - start).fdiv steps
      let step_list := ((pyRange start stop step_increment).map fmt).take steps.toNat
      { yields := emitPairs (step_list ++ [fmt stop]) 0, raises := false }
    else
      { yields := [(fmt start, fmt stop, 1)], raises := true }
  else
    let distance := (RMAX - start) + (stop - RMIN)
    if distance > steps - 1 then
      let step_increment := distance.fdiv steps
      let step_list := (pyRange start RMAX step_increment).map fmt
        ++ (pyRange RMIN stop step_increment).map fmt
      let step_list := if (step_list.length : Int) > steps - 1
        then step_list.dropLast else step_list
      { yields := emitPairs (step_list ++ [fmt stop]) 0, raises := false }
    else
      { yields := [(fmt start, fmt stop, 1)], raises := true }

/-! ## Preceding-token lookup (`TokenContainer.get_preceding_token`) -/

/-- The loop `for i in reversed(self.ring_tokens): if token > i: return i`,
run on an already-reversed list. -/
def precLoop (token : Int) : List Int → Option Int
  | [] => none
  | i :: rest => if token > i then some i else precLoop token rest

/-- `TokenContainer.get_preceding_token`: scan the ring descending for the
first token strictly below `token`; fall back to the ring's last element
(`none` models the `IndexError` of `ring_tokens[-1]` on an empty ring). -/
def get_preceding_token (ring_tokens : List Int) (token : Int) : Option Int :=
  match precLoop token ring_tokens.reverse with
  | some i => some i
  | none => ring_tokens.getLast?

/-! ## Exponential backoff (`ExponentialBackoffRetryer`) -/

/-- The `ExponentialBackoffRetryerConfig` namedtuple.  `max_tries` is used only
as `range(max_tries)`, so it is a `Nat`; the sleep fields are modelled as
rationals. -/
structure RetryerConfig where
  max_tries : Nat
  initial_sleep : ℚ
  sleep_factor : ℚ
  max_sleep : ℚ
  deriving Repr, DecidableEq

/-- Observable behaviour of one `ExponentialBackoffRetryer.__call__`: the
returned result (`none` models the `UnboundLocalError` of `return result` when
`max_tries = 0`), the number of executor invocations, and the sleep durations
passed to the sleeper, in order. -/
structure RetryTrace (α : Type) where
  result : Option α
  calls : Nat
  sleeps : List ℚ
  deriving Repr, DecidableEq

/-- The `for i in range(self.config.max_tries)` loop of
`ExponentialBackoffRetryer.__call__`.  The executor is modelled as a function
of the 0-based attempt number (`i` is the attempt counter, `remaining` the
number of loop iterations left, `next_sleep` the current backoff value). -/
def retryLoop {α : Type} (success_checker : α → Bool) (executor : Nat → α)
    (max_sleep sleep_factor : ℚ) :
    Nat → Nat → ℚ → RetryTrace α
  | _, 0, _ => { result := none, calls := 0, sleeps := [] }
  | i, remaining + 1, next_sleep =>
    let result := executor i
    if success_checker result then
      { result := some result, calls := 1, sleeps := [] }
    else if remaining = 0 then
      { result := some result, calls := 1, sleeps := [] }
    else
      let s := if max_sleep ≤ 0 then next_sleep else min next_sleep max_sleep
      let rest := retryLoop success_checker executor max_sleep sleep_factor
        (i + 1) remaining (next_sleep * sleep_factor)
      { result := rest.result, calls := rest.calls + 1, sleeps := s :: rest.sleeps }

/-- `ExponentialBackoffRetryer.__call__`. -/
def retryerCall {α : Type} (config : RetryerConfig)
    (success_checker : α → Bool) (executor : Nat → α) : RetryTrace α :=
  retryLoop success_checker executor config.max_sleep config.sleep_factor
    0 config.max_tries config.initial_sleep

/-! ## The status ledger (`RepairStatus`) -/

/-- One repair-step record as built by `RepairStatus._build_repair_dict`.
`keyspace = none` and `column_families = none` stand for the literal `'<all>'`
markers the dict stores for falsy arguments. -/
structure RepairStep where
  time : Nat
  step : Nat
  startTok : Str
  endTok : Str
  nodeposition : Str
  keyspace : Option Str
  column_families : Option (List Str)
  cmd : Str
  deriving Repr, DecidableEq

/-- `' '.join(map(str, cmd))`. -/
def joinSpace : List Str → Str
  | [] => []
  | [x] => x
  | x :: rest => x ++ ' ' :: joinSpace rest

/-- `RepairStatus._build_repair_dict` (the `x or '<all>'` idiom collapses both
`None` and empty values to the `'<all>'` marker, i.e. to `none` here). -/
def build_repair_dict (t : Nat) (cmd : List Str) (step : Nat)
    (startTok endTok nodeposition : Str)
    (keyspace : Option Str) (column_families : Option (List Str)) : RepairStep :=
  { time := t, step := step, startTok := startTok, endTok := endTok,
    nodeposition := nodeposition,
    keyspace := match keyspace with
      | some k => if k = [] then none else some k
      | none => none,
    column_families := match column_families with
      | some c => if c = [] then none else some c
      | none => none,
    cmd := joinSpace cmd }

/-- The persisted status document / the mutable state of `RepairStatus`.
The counts are Python ints (ℤ): `repair_failed_ranges` decrements
`failed_count`, so it is not a priori non-negative. -/
structure RepairStatusState where
  started : Option Nat
  updated : Option Nat
  finished : Option Nat
  failed_repairs : List RepairStep
  current_repair : Option RepairStep
  successful_count : Int
  failed_count : Int
  deriving Repr, DecidableEq

/-- `RepairStatus.write` at timestamp `t` (the full-document overwrite; the
document content is the state itself, so persisting is modelled by stamping
`updated`). -/
def RepairStatus.write (s : RepairStatusState) (t : Nat) : RepairStatusState :=
  { s with updated := some t }

/-- The field values set by `RepairStatus.__init__` and `RepairStatus.reset`. -/
def RepairStatus.init : RepairStatusState :=
  { started := none, updated := none, finished := none, failed_repairs := [],
    current_repair := none, successful_count := 0, failed_count := 0 }

/-- `RepairStatus.reset`. -/
def RepairStatus.reset (_s : RepairStatusState) : RepairStatusState :=
  RepairStatus.init

/-- `RepairStatus.start`: reset, stamp `started` (at time `t`), write (at
time `u`). -/
def RepairStatus.start (s : RepairStatusState) (t u : Nat) : RepairStatusState :=
  RepairStatus.write { RepairStatus.reset s with started := some t } u

/-- `RepairStatus.repair_start`: record the current repair and write. -/
def RepairStatus.repair_start (s : RepairStatusState) (d : RepairStep)
    (u : Nat) : RepairStatusState :=
  RepairStatus.write { s with current_repair := some d } u

/-- `RepairStatus.repair_fail`: append the step to `failed_repairs`, increment
`failed_count`, write. -/
def RepairStatus.repair_fail (s : RepairStatusState) (d : RepairStep)
    (u : Nat) : RepairStatusState :=
  RepairStatus.write { s with failed_repairs := s.failed_repairs ++ [d],
                              failed_count := s.failed_count + 1 } u

/-- `RepairStatus.repair_success`: increment `successful_count`, write. -/
def RepairStatus.repair_success (s : RepairStatusState) (u : Nat) : RepairStatusState :=
  RepairStatus.write { s with successful_count := s.successful_count + 1 } u

/-- `RepairStatus.finish`: stamp `finished` (at time `t`), write (at `u`). -/
def RepairStatus.finish (s : RepairStatusState) (t u : Nat) : RepairStatusState :=
  RepairStatus.write { s with finished := some t } u

/-! ## The résumé operation (`repair_failed_ranges.repair_failed_ranges`) -/

/-- `write_status` of `repair_failed_ranges.py`: stamp `updated`, persist. -/
def write_status (s : RepairStatusState) (t : Nat) : RepairStatusState :=
  { s with updated := some t }

/-- Output of the loop over the snapshot of failed repairs: the status object
after the loop, the commands passed to `run_command` in order, the values
assigned to `current_repair` in order, the states passed to `write_status`
in order, and the clock after the loop. -/
structure ResumeLoopOut where
  state : RepairStatusState
  invoked : List Str
  currents : List RepairStep
  writes : List RepairStatusState
  clock : Nat
  deriving Repr, DecidableEq

/-- The `for failed_repair in failed_repairs` loop of `repair_failed_ranges`.
`outcome k` is the success of the `k`-th `run_command` invocation (the external
process boundary); `clock` models `datetime.now()` readings (three per
iteration: the fresh `time` stamp and the two `write_status` calls).
`del status['failed_repairs'][0]` is `List.tail` — inside this loop the live
list always still holds the unprocessed part of the snapshot, so it is
non-empty. -/
def resumeLoop (outcome : Nat → Bool) :
    List RepairStep → Nat → Nat → RepairStatusState → ResumeLoopOut
  | [], _, clock, s =>
    { state := s, invoked := [], currents := [], writes := [], clock := clock }
  | e :: rest, k, clock, s =>
    let s1 : RepairStatusState :=
      { s with failed_repairs := s.failed_repairs.tail,
               failed_count := s.failed_count - 1 }
    let e1 : RepairStep := { e with time := clock }
    let s2 := write_status { s1 with current_repair := some e1 } (clock + 1)
    let s3 : RepairStatusState :=
      if outcome k then
        { s2 with successful_count := s2.successful_count + 1 }
      else
        { s2 with failed_count := s2.failed_count + 1,
                  failed_repairs := s2.failed_repairs ++ [e1] }
    let s4 := write_status s3 (clock + 2)
    let out := resumeLoop outcome rest (k + 1) (clock + 3) s4
    { state := out.state, invoked := e.cmd :: out.invoked,
      currents := e1 :: out.currents, writes := s2 :: s4 :: out.writes,
      clock := out.clock }

/-- Observable behaviour of one `repair_failed_ranges(status, filename)` call:
the final status object, the commands invoked, the `current_repair`
assignments, every state passed to `write_status`, and the returned
`len(status['failed_repairs'])`. -/
structure ResumeResult where
  final : RepairStatusState
  invoked : List Str
  currents : List RepairStep
  writes : List RepairStatusState
  ret : Nat
  deriving Repr, DecidableEq

/-- `repair_failed_ranges.repair_failed_ranges`.  Note that in the
`failed_repairs == []` branch the function only logs: `finished` is not set
and nothing is written. -/
def repair_failed_ranges (outcome : Nat → Bool) (clock : Nat)
    (status : RepairStatusState) : ResumeResult :=
  if status.failed_repairs.length > 0 then
    let s1 := write_status { status with finished := none } clock
    let out := resumeLoop outcome status.failed_repairs 0 (clock + 1) s1
    let s2 := write_status { out.state with finished := some out.clock } (out.clock + 1)
    { final := s2, invoked := out.invoked, currents := out.currents,
      writes := s1 :: (out.writes ++ [s2]), ret := s2.failed_repairs.length }
  else
    { final := status, invoked := [], currents := [], writes := [],
      ret := status.failed_repairs.length }

/-! ## The exclusion classifier (`is_excluded`) -/

/-- Python `str.split(sep)` for a one-character separator. -/
def pySplit (sep : Char) : Str → List Str
  | [] => [[]]
  | c :: rest =>
    match pySplit sep rest with
    | h :: t => if c = sep then [] :: h :: t else (c :: h) :: t
    | [] => [[c]]

/-- Helper for `pyInt`: the value of a non-empty all-digit string. -/
def digitsVal (s : Str) : Option Nat :=
  if s = [] then none
  else
    s.foldl
      (fun acc c =>
        match acc with
        | none => none
        | some n => if '0' ≤ c ∧ c ≤ '9' then some (n * 10 + (c.toNat - 48)) else none)
      (some 0)

/-- Python `int(s)` on an optionally signed decimal string; `none` models the
`ValueError` on anything else. -/
def pyInt (s : Str) : Option Int :=
  match s with
  | '-' :: rest => (digitsVal rest).map fun n => -(n : Int)
  | '+' :: rest => (digitsVal rest).map fun n => (n : Int)
  | _ => (digitsVal s).map fun n => (n : Int)

/-- The `offset` option as produced by `parse_offset`: `{'node': int, 'step': int}`. -/
structure OffsetSpec where
  node : Int
  step : Int
  deriving Repr, DecidableEq

/-- The `exclude_step` option as produced by `parse_exclude_step`: keyspace and
column family are optional strings, `node` stays a string, `step` is an int. -/
structure ExcludeStepSpec where
  keyspace : Option Str
  column_family : Option Str
  node : Str
  step : Int
  deriving Repr, DecidableEq

/-- Python truthiness of an optional string (`None` and `''` are falsy). -/
def truthyStr : Option Str → Bool
  | none => false
  | some s => !s.isEmpty

/-- `is_excluded(options, start, end, step, nodeposition)` (the token
boundaries are unused by the function and omitted).  Returns
`0`=run, `1`=skip the entire step, `2`=skip only the excluded keyspace;
`none` models the `ValueError` of `int(current_node)` on an unparseable node
position when an offset is configured. -/
def is_excluded (offset : Option OffsetSpec) (exclude_step : Option ExcludeStepSpec)
    (opts_keyspace : Option Str) (step : Int) (nodeposition : Str) : Option Nat :=
  let current_node := (pySplit '/' nodeposition).headD []
  let offsetHit : Option Bool :=
    match offset with
    | none => some false
    | some off =>
      match pyInt current_node with
      | none => none
      | some cn => some (decide (off.node = cn) && decide (step < off.step))
  match offsetHit with
  | none => none
  | some true => some 1
  | some false =>
    match exclude_step with
    | some ex =>
      if ex.node = current_node ∧ ex.step = step then
        if truthyStr ex.keyspace then
          if truthyStr opts_keyspace ∧ opts_keyspace = ex.keyspace then some 1
          else if truthyStr opts_keyspace = false then some 2
          else some 0
        else some 1
      else some 0
    | none => some 0

/-! ## Specification predicates used by the theorems -/

/-- The emitted sub-ranges tile the interval from `start` to `stop` exactly:
there is at least one, the first starts at `fmt start`, each one's end is the
next one's start (no gap, no overlap), the last ends at the literal
`fmt stop`, and the step indices are `1, 2, 3, …` in emission order. -/
def TilesExactly (fmt : Int → Str) (start stop : Int)
    (ys : List (Str × Str × Nat)) : Prop :=
  ys ≠ [] ∧
  (ys.get? 0).map (fun t => t.1) = some (fmt start) ∧
  (∀ i p q, ys.get? i = some p → ys.get? (i + 1) = some q → p.2.1 = q.1) ∧
  (ys.getLast?).map (fun t => t.2.1) = some (fmt stop) ∧
  (∀ i p, ys.get? i = some p → p.2.2 = i + 1)

/-- The specification of `get_preceding_token` on a non-empty sorted ring:
it returns a ring member which is the largest ring token strictly below the
reference token when one exists, and otherwise (the wrap-around case) the
ring's maximum element. -/
def PrecedingTokenSpec (ring_tokens : List Int) (token : Int) : Prop :=
  ∃ r, get_preceding_token ring_tokens token = some r ∧ r ∈ ring_tokens ∧
    ((∃ x ∈ ring_tokens, x < token) →
      r < token ∧ ∀ x ∈ ring_tokens, x < token → x ≤ r) ∧
    ((∀ x ∈ ring_tokens, ¬ x < token) → ∀ x ∈ ring_tokens, x ≤ r)

/-- The duration handed to the sleeper for a current backoff value `x`:
`x if max_sleep <= 0 else min(x, max_sleep)`. -/
def clipSleep (max_sleep x : ℚ) : ℚ :=
  if max_sleep ≤ 0 then x else min x max_sleep

/-- Full behavioural specification of one retryer call: at least one and at
most `max_tries` invocations; the returned result is the last invocation's
result; no invocation before the last one succeeded (the loop stops at the
first success); if the last result also failed then all `max_tries` attempts
were used; exactly one sleep follows every failing attempt except the last
attempt made (and none follows the final attempt); and the `j`-th sleep is
`initial_sleep * sleep_factor ^ j` clipped to `max_sleep`. -/
def RetryerSpec {α : Type} (config : RetryerConfig)
    (success_checker : α → Bool) (executor : Nat → α) : Prop :=
  let out := retryerCall config success_checker executor
  1 ≤ out.calls ∧ out.calls ≤ config.max_tries ∧
  out.result = some (executor (out.calls - 1)) ∧
  (∀ j, j + 1 < out.calls → success_checker (executor j) = false) ∧
  (success_checker (executor (out.calls - 1)) = false → out.calls = config.max_tries) ∧
  out.sleeps.length = out.calls - 1 ∧
  (∀ j, j < out.sleeps.length →
    out.sleeps.get? j
      = some (clipSleep config.max_sleep (config.initial_sleep * config.sleep_factor ^ j)))

/-- The failing snapshot entries, stamped with the fresh timestamps the loop
gives them (`k` is the index of the first entry, `clock` its `time` stamp;
each iteration advances the clock by 3). -/
def expectedFailures (outcome : Nat → Bool) : List RepairStep → Nat → Nat → List RepairStep
  | [], _, _ => []
  | e :: rest, k, clock =>
    (if outcome k then [] else [{ e with time := clock }])
      ++ expectedFailures outcome rest (k + 1) (clock + 3)

/-- The number of successful invocations over the snapshot starting at
invocation index `k`. -/
def numSucc (outcome : Nat → Bool) : List RepairStep → Nat → Nat
  | [], _ => 0
  | _ :: rest, k => (if outcome k then 1 else 0) + numSucc outcome rest (k + 1)

/-- Every snapshot entry stamped with its fresh timestamp, in order. -/
def stampedEntries : List RepairStep → Nat → List RepairStep
  | [], _ => []
  | e :: rest, clock => { e with time := clock } :: stampedEntries rest (clock + 3)

/-- Observable specification of one résumé run over a ledger: every stored
command is invoked exactly once, in snapshot order; each snapshot entry is
(re)stamped and set as `current_repair` in order; the final failed list holds
exactly the freshly-stamped entries whose invocation failed; `failed_count`
decreases by one per processed entry and increases by one per re-appended
failure; `successful_count` increases by the number of successes; `finished`
is stamped; and the returned value is the number of entries still failing. -/
def ResumeSpec (outcome : Nat → Bool) (clock : Nat) (s : RepairStatusState) : Prop :=
  (repair_failed_ranges outcome clock s).invoked
      = s.failed_repairs.map (fun e => e.cmd) ∧
  (repair_failed_ranges outcome clock s).currents
      = stampedEntries s.failed_repairs (clock + 1) ∧
  (repair_failed_ranges outcome clock s).final.failed_repairs
      = expectedFailures outcome s.failed_repairs 0 (clock + 1) ∧
  (repair_failed_ranges outcome clock s).final.failed_count
      = s.failed_count - s.failed_repairs.length
        + (expectedFailures outcome s.failed_repairs 0 (clock + 1)).length ∧
  (repair_failed_ranges outcome clock s).final.successful_count
      = s.successful_count + numSucc outcome s.failed_repairs 0 ∧
  (repair_failed_ranges outcome clock s).final.finished
      = some (clock + 1 + 3 * s.failed_repairs.length) ∧
  (repair_failed_ranges outcome clock s).final.started = s.started ∧
  (repair_failed_ranges outcome clock s).ret
      = (repair_failed_ranges outcome clock s).final.failed_repairs.length ∧
  (repair_failed_ranges outcome clock s).ret
      = (expectedFailures outcome s.failed_repairs 0 (clock + 1)).length

/-- A concrete repair step for the witnesses. -/
def sampleStep1 : RepairStep :=
  { time := 0, step := 1, startTok := ['a'], endTok := ['b'],
    nodeposition := ['1', '/', '2'], keyspace := none, column_families := none,
    cmd := ['c', '1'] }

/-- A second concrete repair step for the witnesses. -/
def sampleStep2 : RepairStep :=
  { time := 0, step := 2, startTok := ['b'], endTok := ['c'],
    nodeposition := ['2', '/', '2'], keyspace := none, column_families := none,
    cmd := ['c', '2'] }

/-- A concrete ledger with two failed entries for the witnesses. -/
def sampleLedger : RepairStatusState :=
  { started := some 0, updated := some 1, finished := some 2,
    failed_repairs := [sampleStep1, sampleStep2], current_repair := none,
    successful_count := 3, failed_count := 2 }

/-- Ledgers reachable from a fresh `RepairStatus` by the recorded operations:
the mutators of `RepairStatus` (each of which persists synchronously), a full
résumé run, and any intermediate state persisted by `write_status` during a
résumé run. -/
inductive LedgerReachable : RepairStatusState → Prop
  | init : LedgerReachable RepairStatus.init
  | start (s : RepairStatusState) (t u : Nat) :
      LedgerReachable s → LedgerReachable (RepairStatus.start s t u)
  | repair_start (s : RepairStatusState) (d : RepairStep) (u : Nat) :
      LedgerReachable s → LedgerReachable (RepairStatus.repair_start s d u)
  | repair_fail (s : RepairStatusState) (d : RepairStep) (u : Nat) :
      LedgerReachable s → LedgerReachable (RepairStatus.repair_fail s d u)
  | repair_success (s : RepairStatusState) (u : Nat) :
      LedgerReachable s → LedgerReachable (RepairStatus.repair_success s u)
  | finish (s : RepairStatusState) (t u : Nat) :
      LedgerReachable s → LedgerReachable (RepairStatus.finish s t u)
  | resume (s : RepairStatusState) (outcome : Nat → Bool) (clock : Nat) :
      LedgerReachable s → LedgerReachable (repair_failed_ranges outcome clock s).final
  | resume_write (s : RepairStatusState) (outcome : Nat → Bool) (clock : Nat)
      (w : RepairStatusState) : LedgerReachable s →
      w ∈ (repair_failed_ranges outcome clock s).writes → LedgerReachable w

/-- Fixed-width formatting, and the ranges on which lexical and numeric order
agree: the 21-character signed format for every 64-bit token, the
39-character format for every 127-bit token; order coincidence for all tokens
of the 127-bit space and for the non-negative tokens of the 64-bit space. -/
def FormatOrderSpec : Prop :=
  (∀ v : Int, RANGE_MIN64 ≤ v → v ≤ RANGE_MAX64 → (format64 v).length = 21) ∧
  (∀ v : Int, RANGE_MIN127 ≤ v → v ≤ RANGE_MAX127 → (format127 v).length = 39) ∧
  (∀ a b : Int, RANGE_MIN127 ≤ a → a ≤ RANGE_MAX127 → RANGE_MIN127 ≤ b →
    b ≤ RANGE_MAX127 → (a ≤ b ↔ format127 a ≤ format127 b)) ∧
  (∀ a b : Int, 0 ≤ a → a ≤ RANGE_MAX64 → 0 ≤ b → b ≤ RANGE_MAX64 →
    (a ≤ b ↔ format64 a ≤ format64 b))

/-! ## Lemmas about the pairwise emission loop -/

theorem emitPairs_length (l : List Str) (c : Nat) :
    (emitPairs l c).length = l.length - 1 := by
  induction l generalizing c with
  | nil => simp [emitPairs]
  | cons a l ih =>
    cases l with
    | nil => simp [emitPairs]
    | cons b rest =>
      simp only [emitPairs, List.length_cons, ih (c + 1)]
      omega

theorem emitPairs_get?_eq_some (l : List Str) (c i : Nat) (p : Str × Str × Nat) :
    (emitPairs l c).get? i = some p ↔
      ∃ a b, l.get? i = some a ∧ l.get? (i + 1) = some b ∧ p = (a, b, c + i + 1) := by
  induction l generalizing c i with
  | nil => simp [emitPairs]
  | cons a l ih =>
    cases l with
    | nil =>
      constructor
      · intro h; simp [emitPairs] at h
      · rintro ⟨x, y, hx, hy, rfl⟩
        rcases i with _ | i <;> simp at hy
    | cons b rest =>
      cases i with
      | zero =>
        show ((a, b, c + 1) :: emitPairs (b :: rest) (c + 1)).get? 0 = some p ↔ _
        simp only [List.get?]
        constructor
        · intro h
          exact ⟨a, b, rfl, rfl, by
            cases h
            rfl⟩
        · rintro ⟨x, y, hx, hy, rfl⟩
          cases hx
          cases hy
          rfl
      | succ i =>
        show ((a, b, c + 1) :: emitPairs (b :: rest) (c + 1)).get? (i + 1) = some p ↔ _
        simp only [List.get?]
        rw [ih (c + 1) i]
        constructor
        · rintro ⟨x, y, hx, hy, rfl⟩
          exact ⟨x, y, hx, hy, by
            have : c + 1 + i + 1 = c + (i + 1) + 1 := by omega
            rw [this]⟩
        · rintro ⟨x, y, hx, hy, rfl⟩
          exact ⟨x, y, hx, hy, by
            have : c + 1 + i + 1 = c + (i + 1) + 1 := by omega
            rw [this]⟩

theorem emitPairs_getLast? (l : List Str) (c : Nat) (h : 2 ≤ l.length) :
    ((emitPairs l c).getLast?).map (fun t => t.2.1) = l.getLast? := by
  have hlen := emitPairs_length l c
  rw [List.getLast?_eq_get?, List.getLast?_eq_get?]
  obtain ⟨x, hx⟩ : ∃ x, l.get? (l.length - 2) = some x := by
    rw [List.get?_eq_get (by omega)]; exact ⟨_, rfl⟩
  obtain ⟨y, hy⟩ : ∃ y, l.get? (l.length - 1) = some y := by
    rw [List.get?_eq_get (by omega)]; exact ⟨_, rfl⟩
  have hxy : l.get? (l.length - 2 + 1) = some y := by
    rw [show l.length - 2 + 1 = l.length - 1 from by omega]; exact hy
  have hstep : (emitPairs l c).get? ((emitPairs l c).length - 1) = some (x, y, c + (l.length - 2) + 1) := by
    rw [hlen, show l.length - 1 - 1 = l.length - 2 from by omega]
    exact (emitPairs_get?_eq_some l c (l.length - 2) _).mpr ⟨x, y, hx, hxy, rfl⟩
  rw [hstep, hy]
  rfl

theorem tiles_singleton (fmt : Int → Str) (start stop : Int) :
    TilesExactly fmt start stop [(fmt start, fmt stop, 1)] := by
  refine ⟨by simp, by simp, ?_, by simp, ?_⟩
  · intro i p q hp hq
    rcases i with _ | i
    · simp at hq
    · simp at hp
  · intro i p hp
    rcases i with _ | i
    · simp at hp
      rw [← hp]
    · simp at hp

theorem tiles_emitPairs (fmt : Int → Str) (start stop : Int) (bl : List Str)
    (hh : bl.head? = some (fmt start)) (hl : bl.getLast? = some (fmt stop))
    (hlen : 2 ≤ bl.length) :
    TilesExactly fmt start stop (emitPairs bl 0) := by
  have hlength := emitPairs_length bl 0
  refine ⟨?_, ?_, ?_, ?_, ?_⟩
  · intro hnil
    rw [hnil] at hlength
    simp at hlength
    omega
  · obtain ⟨b, hb⟩ : ∃ b, bl.get? 1 = some b := by
      rw [List.get?_eq_get (by omega)]; exact ⟨_, rfl⟩
    have ha : bl.get? 0 = some (fmt start) := by
      cases bl with
      | nil => simp at hh
      | cons x xs => simpa using hh
    have h0 : (emitPairs bl 0).get? 0 = some (fmt start, b, 0 + 0 + 1) :=
      (emitPairs_get?_eq_some bl 0 0 _).mpr ⟨_, _, ha, hb, rfl⟩
    rw [h0]
    rfl
  · intro i p q hp hq
    obtain ⟨a, b, h1, h2, rfl⟩ := (emitPairs_get?_eq_some _ _ _ _).mp hp
    obtain ⟨a', b', h1', h2', rfl⟩ := (emitPairs_get?_eq_some _ _ _ _).mp hq
    rw [h2] at h1'
    show b = a'
    exact Option.some.inj h1'
  · rw [emitPairs_getLast? bl 0 hlen, hl]
  · intro i p hp
    obtain ⟨a, b, _, _, rfl⟩ := (emitPairs_get?_eq_some _ _ _ _).mp hp
    simp

/-! ## Lemmas about `pyRange` -/

theorem pyRange_head? (start stop step : Int) (h1 : 0 < step) (h2 : start < stop) :
    (pyRange start stop step).head? = some start := by
  unfold pyRange
  rw [if_pos ⟨h1, h2⟩]
  have hd : 1 ≤ (stop - start + step - 1) / step := by
    rw [Int.le_ediv_iff_mul_le h1]
    omega
  obtain ⟨k, hk⟩ : ∃ k, ((stop - start + step - 1) / step).toNat = k + 1 :=
    ⟨((stop - start + step - 1) / step).toNat - 1, by omega⟩
  rw [hk, List.range_succ_eq_map]
  simp

theorem pyRange_ne_nil (start stop step : Int) (h1 : 0 < step) (h2 : start < stop) :
    pyRange start stop step ≠ [] := by
  intro h
  have := pyRange_head? start stop step h1 h2
  rw [h] at this
  simp at this

/-! ## C1: the non-wrapping partition tiles the interval -/

/-- C1.  For `end > start` and `steps ≥ 1`, the SubRanges yielded by
`sub_range_generator(start, end, steps)` tile the interval exactly: the first
starts at `format(start)`, each one's end equals the next one's start, the
last ends at the literal `format(end)`, and the step indices are 1-based and
increase by one per emitted SubRange. -/
theorem partition_tiles (fmt : Int → Str) (RMIN RMAX start stop steps : Int)
    (h1 : start < stop) (h2 : 1 ≤ steps) :
    TilesExactly fmt start stop
      (sub_range_generator fmt RMIN RMAX start stop steps).yields := by
  unfold sub_range_generator
  rw [if_pos (show stop > start from h1)]
  by_cases hc : start + steps < stop + 1
  · rw [if_pos hc]
    show TilesExactly fmt start stop
      (emitPairs ((((pyRange start stop ((stop - start).fdiv steps)).map fmt).take
        steps.toNat) ++ [fmt stop]) 0)
    have hinc : 1 ≤ (stop - start).fdiv steps := by
      rw [Int.fdiv_eq_ediv _ (by omega)]
      rw [Int.le_ediv_iff_mul_le (by omega)]
      omega
    obtain ⟨x, xs, hx⟩ : ∃ x xs, pyRange start stop ((stop - start).fdiv steps) = x :: xs := by
      cases hpr : pyRange start stop ((stop - start).fdiv steps) with
      | nil => exact absurd hpr (pyRange_ne_nil _ _ _ (by omega) h1)
      | cons x xs => exact ⟨x, xs, rfl⟩
    have hx0 : x = start := by
      have := pyRange_head? start stop ((stop - start).fdiv steps) (by omega) h1
      rw [hx] at this
      simpa using this
    obtain ⟨k, hk⟩ : ∃ k, steps.toNat = k + 1 := ⟨steps.toNat - 1, by omega⟩
    apply tiles_emitPairs
    · rw [hx, hx0, hk]
      simp [List.take]
    · simp
    · rw [hx, hx0, hk]
      simp [List.take]
  · rw [if_neg hc]
    exact tiles_singleton fmt start stop

/-- Witness for C1 at `start = 0`, `stop = 10`, `steps = 3` in the 64-bit
space. -/
theorem partition_tiles_witness :
    (0 : Int) < 10 ∧ (1 : Int) ≤ 3 ∧
      TilesExactly format64 0 10
        (sub_range_generator format64 RANGE_MIN64 RANGE_MAX64 0 10 3).yields :=
  ⟨by norm_num, by norm_num,
    partition_tiles format64 RANGE_MIN64 RANGE_MAX64 0 10 3 (by norm_num) (by norm_num)⟩

/-! ## C2: the degenerate case yields one SubRange, then raises -/

/-- C2 (code bug).  For `start = 0`, `stop = 5`, `steps = 100` — more requested
steps than keys in the interval — the generator yields the single SubRange
`(format(start), format(stop), 1)` covering the whole interval, but iterating
past it raises `UnboundLocalError` (`step_list.append` runs with `step_list`
never assigned in this branch) instead of terminating normally. -/
theorem degenerate_yields_one_then_raises :
    sub_range_generator format64 RANGE_MIN64 RANGE_MAX64 0 5 100
      = { yields := [(format64 0, format64 5, 1)], raises := true } := by
  rfl

/-! ## C3: the wrap-around case -/

/-- C3 (amended).  For `start = RANGE_MAX - 5`, `stop = RANGE_MIN + 5`,
`steps = 4` in the 64-bit space the generator drops a single computed boundary
(`step_list.pop()`) and then emits five consecutive SubRanges whose boundaries
run from `RANGE_MAX - 5` up to `RANGE_MAX - 1`, cross to `RANGE_MIN` at step 3
without skipping the transition point, and end at the literal
`RANGE_MIN + 5`. -/
theorem wraparound_example_crosses_seam :
    sub_range_generator format64 RANGE_MIN64 RANGE_MAX64
        (RANGE_MAX64 - 5) (RANGE_MIN64 + 5) 4
      = { yields := [
            (format64 (RANGE_MAX64 - 5), format64 (RANGE_MAX64 - 3), 1),
            (format64 (RANGE_MAX64 - 3), format64 (RANGE_MAX64 - 1), 2),
            (format64 (RANGE_MAX64 - 1), format64 RANGE_MIN64, 3),
            (format64 RANGE_MIN64, format64 (RANGE_MIN64 + 2), 4),
            (format64 (RANGE_MIN64 + 2), format64 (RANGE_MIN64 + 5), 5)],
          raises := false } := by
  decide

/-- C3 counterexample: on the claim's own example input the generator emits
five SubRanges, more than `steps = 4` — the single `pop()` does not trim the
boundary list to at most `steps` boundaries. -/
theorem wraparound_emits_more_than_steps :
    ¬ ((sub_range_generator format64 RANGE_MIN64 RANGE_MAX64
          (RANGE_MAX64 - 5) (RANGE_MIN64 + 5) 4).yields.length ≤ 4) := by
  decide

/-! ## C5 counterexample: lexical and numeric order differ on negatives -/

/-- C5 counterexample: `-1 ≤ 0` but `format(-1) > format(0)` in lexicographic
order (ASCII has `'+' < '-'`, so every negative token sorts after every
non-negative one). -/
theorem format_order_counterexample :
    (-1 : Int) ≤ 0 ∧ ¬ (format64 (-1) ≤ format64 0) := by
  decide

/-! ## C8: résumé on a ledger with no failed entries -/

/-- C8 (amended).  With `failed_repairs` empty the résumé operation only logs:
the status object is returned completely unchanged (counts, list, and also
`finished`, which is NOT stamped), nothing is invoked, nothing is written, and
the returned count of still-failing entries is 0. -/
theorem resume_empty_noop (outcome : Nat → Bool) (clock : Nat)
    (s : RepairStatusState) (h : s.failed_repairs = []) :
    repair_failed_ranges outcome clock s
      = { final := s, invoked := [], currents := [], writes := [], ret := 0 } := by
  unfold repair_failed_ranges
  rw [h]
  simp

/-- Witness for C8 (amended) on the freshly-initialised ledger. -/
theorem resume_empty_noop_witness :
    RepairStatus.init.failed_repairs = [] ∧
      repair_failed_ranges (fun _ => true) 0 RepairStatus.init
        = { final := RepairStatus.init, invoked := [], currents := [],
            writes := [], ret := 0 } :=
  ⟨rfl, resume_empty_noop _ _ _ rfl⟩

/-- C8 counterexample: on a ledger with no failed entries the résumé operation
does not set the `finished` timestamp (the `status['finished'] = …` line is
inside the non-empty branch), contradicting the claim that it is set. -/
theorem resume_empty_finished_not_set :
    ((repair_failed_ranges (fun _ => true) 0 RepairStatus.init).final.finished).isSome
      = false := by
  decide

/-! ## C4: preceding-token lookup on a sorted ring -/

theorem precLoop_eq_some (t : Int) (l : List Int) (i : Int)
    (hp : List.Pairwise (fun a b => b ≤ a) l) (h : precLoop t l = some i) :
    i ∈ l ∧ i < t ∧ ∀ x ∈ l, x < t → x ≤ i := by
  induction l with
  | nil => simp [precLoop] at h
  | cons a rest ih =>
    rw [precLoop] at h
    by_cases hta : t > a
    · rw [if_pos hta] at h
      cases h
      refine ⟨List.mem_cons_self _ _, hta, ?_⟩
      intro x hx _
      rcases List.mem_cons.mp hx with rfl | hx
      · exact le_refl x
      · exact (List.pairwise_cons.mp hp).1 x hx
    · rw [if_neg hta] at h
      obtain ⟨h1, h2, h3⟩ := ih (List.pairwise_cons.mp hp).2 h
      refine ⟨List.mem_cons_of_mem _ h1, h2, ?_⟩
      intro x hx hxt
      rcases List.mem_cons.mp hx with rfl | hx
      · exact absurd hxt hta
      · exact h3 x hx hxt

theorem precLoop_eq_none (t : Int) (l : List Int) (h : precLoop t l = none) :
    ∀ x ∈ l, ¬ x < t := by
  induction l with
  | nil => simp
  | cons a rest ih =>
    rw [precLoop] at h
    by_cases hta : t > a
    · rw [if_pos hta] at h
      cases h
    · rw [if_neg hta] at h
      intro x hx
      rcases List.mem_cons.mp hx with rfl | hx
      · exact hta
      · exact ih h x hx

theorem pairwise_ge_head (l : List Int) (hp : List.Pairwise (fun a b => b ≤ a) l) :
    ∀ x ∈ l, ∀ y, l.head? = some y → x ≤ y := by
  cases l with
  | nil => simp
  | cons a rest =>
    intro x hx y hy
    have hy' : y = a := by simpa using hy.symm
    subst hy'
    rcases List.mem_cons.mp hx with rfl | hx
    · exact le_refl x
    · exact (List.pairwise_cons.mp hp).1 x hx

/-- C4.  On every non-empty ascending-sorted ring, `get_preceding_token`
returns the largest ring token strictly less than the reference token when one
exists, and the ring's maximum token otherwise. -/
theorem preceding_token_correct (ring_tokens : List Int) (token : Int)
    (hne : ring_tokens ≠ []) (hs : List.Sorted (· ≤ ·) ring_tokens) :
    PrecedingTokenSpec ring_tokens token := by
  have hrev : List.Pairwise (fun a b => b ≤ a) ring_tokens.reverse := by
    rw [List.pairwise_reverse]
    exact hs
  unfold PrecedingTokenSpec get_preceding_token
  cases hloop : precLoop token ring_tokens.reverse with
  | some i =>
    obtain ⟨h1, h2, h3⟩ := precLoop_eq_some token _ i hrev hloop
    rw [List.mem_reverse] at h1
    refine ⟨i, rfl, h1, fun _ => ⟨h2, ?_⟩, fun hall => absurd h2 (hall i h1)⟩
    intro x hx hxt
    exact h3 x (List.mem_reverse.mpr hx) hxt
  | none =>
    have hnone := precLoop_eq_none token _ hloop
    obtain ⟨y, hy⟩ : ∃ y, ring_tokens.getLast? = some y := by
      cases hg : ring_tokens.getLast? with
      | none => exact absurd (List.getLast?_eq_none_iff.mp hg) hne
      | some y => exact ⟨y, rfl⟩
    refine ⟨y, hy, List.mem_of_getLast?_eq_some hy, ?_, ?_⟩
    · rintro ⟨x, hx, hxt⟩
      exact absurd hxt (hnone x (List.mem_reverse.mpr hx))
    · intro _ x hx
      refine pairwise_ge_head _ hrev x (List.mem_reverse.mpr hx) y ?_
      rw [List.head?_reverse, hy]

/-- Witness for C4 on the ring `[1, 5, 9]` at reference token 6. -/
theorem preceding_token_correct_witness :
    ([(1 : Int), 5, 9] ≠ []) ∧ List.Sorted (· ≤ ·) [(1 : Int), 5, 9] ∧
      PrecedingTokenSpec [(1 : Int), 5, 9] 6 :=
  ⟨by decide, by decide, preceding_token_correct _ 6 (by decide) (by decide)⟩

/-! ## C9: the exclusion classifier -/

/-- C9 (amended).  (1) For an `exclude_step` with no keyspace qualifier naming
node `n` and step `s`, the classifier returns SKIP_ENTIRE_STEP (1) at node
position `n`, step `s`, for every keyspace scope, and RUN (0) at node `n` for
any other step.  (2) For a configured offset `(node, step)`, at that node the
classifier returns SKIP_ENTIRE_STEP for every step strictly BEFORE the offset
step (the comparison in the code is `step < offset['step']`), and RUN at or
after the offset step (absent an exclude match). -/
theorem is_excluded_spec :
    (∀ (ex : ExcludeStepSpec) (ks : Option Str) (step : Int) (np : Str),
        ex.keyspace = none → (pySplit '/' np).headD [] = ex.node →
        (step = ex.step → is_excluded none (some ex) ks step np = some 1) ∧
        (step ≠ ex.step → is_excluded none (some ex) ks step np = some 0)) ∧
    (∀ (off : OffsetSpec) (ks : Option Str) (step : Int) (np : Str),
        pyInt ((pySplit '/' np).headD []) = some off.node →
        (step < off.step → is_excluded (some off) none ks step np = some 1) ∧
        (off.step ≤ step → is_excluded (some off) none ks step np = some 0)) := by
  constructor
  · intro ex ks step np hks hnode
    rw [List.headD_eq_head?_getD] at hnode
    constructor
    · intro hstep
      simp [is_excluded, hnode, hks, hstep, truthyStr]
    · intro hstep
      simp [is_excluded, hnode, hks, truthyStr, Ne.symm hstep]
  · intro off ks step np hnode
    rw [List.headD_eq_head?_getD] at hnode
    constructor
    · intro hstep
      simp [is_excluded, hnode, hstep]
    · intro hstep
      simp [is_excluded, hnode, not_lt.mpr hstep]

/-- Witness for C9 (amended): exclude `node "3", step 2` skips node 3 / step 2
and runs node 3 / step 3; offset `(3, 2)` skips node 3 / step 1. -/
theorem is_excluded_spec_witness :
    is_excluded none (some ⟨none, none, ['3'], 2⟩) none 2 ['3', '/', '5'] = some 1 ∧
      is_excluded none (some ⟨none, none, ['3'], 2⟩) none 3 ['3', '/', '5'] = some 0 ∧
      is_excluded (some ⟨3, 2⟩) none none 1 ['3', '/', '5'] = some 1 :=
  ⟨(is_excluded_spec.1 ⟨none, none, ['3'], 2⟩ none 2 ['3', '/', '5'] rfl (by decide)).1 rfl,
   (is_excluded_spec.1 ⟨none, none, ['3'], 2⟩ none 3 ['3', '/', '5'] rfl (by decide)).2 (by decide),
   (is_excluded_spec.2 ⟨3, 2⟩ none 1 ['3', '/', '5'] (by decide)).1 (by decide)⟩

/-- C9 counterexample: with offset `{node: 3, step: 2}` and no exclude, the
classifier at node 3, step 2 — a step AT the offset resume point — returns
RUN (0), not SKIP_ENTIRE_STEP (1): the code only skips steps strictly before
the offset step. -/
theorem offset_step_itself_not_skipped :
    is_excluded (some ⟨3, 2⟩) none none 2 ['3', '/', '5'] = some 0 ∧
      is_excluded (some ⟨3, 2⟩) none none 2 ['3', '/', '5'] ≠ some 1 := by
  decide

/-! ## C6: the exponential-backoff retryer -/

theorem retryLoop_spec {α : Type} (success_checker : α → Bool) (executor : Nat → α)
    (max_sleep sleep_factor : ℚ) (i r : Nat) (hr : 1 ≤ r) (next_sleep : ℚ) :
    let out := retryLoop success_checker executor max_sleep sleep_factor i r next_sleep
    1 ≤ out.calls ∧ out.calls ≤ r ∧
    out.result = some (executor (i + out.calls - 1)) ∧
    (∀ j, j + 1 < out.calls → success_checker (executor (i + j)) = false) ∧
    (success_checker (executor (i + out.calls - 1)) = false → out.calls = r) ∧
    out.sleeps.length = out.calls - 1 ∧
    (∀ j, j < out.sleeps.length →
      out.sleeps.get? j = some (clipSleep max_sleep (next_sleep * sleep_factor ^ j))) := by
  induction r generalizing i next_sleep with
  | zero => omega
  | succ r ih =>
    intro out
    by_cases hsucc : success_checker (executor i) = true
    · have hout : out = { result := some (executor i), calls := 1, sleeps := [] } := by
        show retryLoop success_checker executor max_sleep sleep_factor i (r + 1) next_sleep = _
        rw [retryLoop]
        simp [hsucc]
      rw [hout]
      dsimp only
      refine ⟨le_refl 1, by omega, by simp, ?_, ?_, rfl, ?_⟩
      · intro j hj
        omega
      · intro hfail
        rw [show i + 1 - 1 = i from by omega] at hfail
        rw [hsucc] at hfail
        cases hfail
      · intro j hj
        simp at hj
    · replace hsucc : success_checker (executor i) = false := by
        cases h : success_checker (executor i)
        · rfl
        · exact absurd h hsucc
      rcases Nat.eq_or_lt_of_le hr with hr1 | hr2
      · -- r + 1 = 1, i.e. r = 0: last iteration, no sleep
        have hr0 : r = 0 := by omega
        subst hr0
        have hout : out = { result := some (executor i), calls := 1, sleeps := [] } := by
          show retryLoop success_checker executor max_sleep sleep_factor i 1 next_sleep = _
          rw [retryLoop]
          simp [hsucc]
        rw [hout]
        dsimp only
        refine ⟨le_refl 1, le_refl 1, by simp, ?_, ?_, rfl, ?_⟩
        · intro j hj
          omega
        · intro _
          rfl
        · intro j hj
          simp at hj
      · -- r ≥ 1: fail, sleep, recurse
        have hrpos : 1 ≤ r := by omega
        have hout : out =
            { result := (retryLoop success_checker executor max_sleep sleep_factor
                (i + 1) r (next_sleep * sleep_factor)).result,
              calls := (retryLoop success_checker executor max_sleep sleep_factor
                (i + 1) r (next_sleep * sleep_factor)).calls + 1,
              sleeps := (if max_sleep ≤ 0 then next_sleep else min next_sleep max_sleep)
                :: (retryLoop success_checker executor max_sleep sleep_factor
                  (i + 1) r (next_sleep * sleep_factor)).sleeps } := by
          show retryLoop success_checker executor max_sleep sleep_factor i (r + 1) next_sleep = _
          rw [retryLoop]
          simp [hsucc, Nat.pos_iff_ne_zero.mp hrpos]
        obtain ⟨ih1, ih2, ih3, ih4, ih5, ih6, ih7⟩ := ih (i + 1) hrpos (next_sleep * sleep_factor)
        generalize hrest : retryLoop success_checker executor max_sleep sleep_factor
          (i + 1) r (next_sleep * sleep_factor) = rest at hout ih1 ih2 ih3 ih4 ih5 ih6 ih7
        rw [hout]
        dsimp only
        refine ⟨by omega, by omega, ?_, ?_, ?_, ?_, ?_⟩
        · show rest.result = some (executor (i + (rest.calls + 1) - 1))
          rw [ih3, show i + 1 + rest.calls - 1 = i + (rest.calls + 1) - 1 from by omega]
        · intro j hj
          rcases j with _ | j
          · simpa using hsucc
          · have : j + 1 < rest.calls := by omega
            have := ih4 j this
            rw [show i + 1 + j = i + (j + 1) from by omega] at this
            exact this
        · intro hfail
          rw [show i + (rest.calls + 1) - 1 = i + 1 + rest.calls - 1 from by omega] at hfail
          have := ih5 hfail
          omega
        · show (_ :: rest.sleeps).length = rest.calls + 1 - 1
          simp [ih6]
          omega
        · intro j hj
          rcases j with _ | j
          · show some (if max_sleep ≤ 0 then next_sleep else min next_sleep max_sleep)
              = some (clipSleep max_sleep (next_sleep * sleep_factor ^ 0))
            simp [clipSleep]
          · show rest.sleeps.get? j = some (clipSleep max_sleep (next_sleep * sleep_factor ^ (j + 1)))
            have hj' : j < rest.sleeps.length := by
              simp at hj
              omega
            rw [ih7 j hj']
            have harg : next_sleep * sleep_factor * sleep_factor ^ j
                = next_sleep * sleep_factor ^ (j + 1) := by ring
            rw [harg]

/-- C6.  (1) For every configuration with `max_tries ≥ 1` and every
executor/success-checker pair, the retryer satisfies `RetryerSpec`: at most
`max_tries` invocations stopping at the first success, a sleep of
`min(next_sleep, max_sleep)` (or `next_sleep` when `max_sleep ≤ 0`) after each
failing non-final attempt with `next_sleep` multiplied by `sleep_factor` each
round, no sleep after the final attempt, and the last result returned
regardless of success.  (2) With `max_tries = 3, initial_sleep = 1,
sleep_factor = 2, max_sleep = 0` and an executor failing twice then
succeeding, it sleeps exactly twice, durations 1 then 2, and returns the
successful result.  (3) An always-failing executor is invoked exactly `N`
times with no sleep after the final attempt. -/
theorem retryer_behavior :
    (∀ {α : Type} (config : RetryerConfig) (success_checker : α → Bool)
        (executor : Nat → α), 1 ≤ config.max_tries →
        RetryerSpec config success_checker executor) ∧
    retryerCall ⟨3, 1, 2, 0⟩ (fun b : Bool => b) (fun i => decide (i = 2))
      = { result := some true, calls := 3, sleeps := [1, 2] } ∧
    (∀ N : Nat, 1 ≤ N →
      (retryerCall ⟨N, 1, 2, 0⟩ (fun _ : Unit => false) (fun _ => ())).calls = N ∧
      (retryerCall ⟨N, 1, 2, 0⟩ (fun _ : Unit => false) (fun _ => ())).sleeps.length
        = N - 1) := by
  have hmain : ∀ {α : Type} (config : RetryerConfig) (success_checker : α → Bool)
      (executor : Nat → α), 1 ≤ config.max_tries →
      RetryerSpec config success_checker executor := by
    intro α config success_checker executor h
    have := retryLoop_spec success_checker executor config.max_sleep config.sleep_factor
      0 config.max_tries h config.initial_sleep
    obtain ⟨h1, h2, h3, h4, h5, h6, h7⟩ := this
    exact ⟨h1, h2, by simpa using h3, by simpa using h4, by simpa using h5, h6, h7⟩
  refine ⟨hmain, ?_, ?_⟩
  · show retryLoop (fun b : Bool => b) (fun i => decide (i = 2)) 0 2 0 3 1 = _
    norm_num [retryLoop]
  intro N hN
  obtain ⟨h1, h2, h3, h4, h5, h6, h7⟩ := hmain ⟨N, 1, 2, 0⟩ (fun _ : Unit => false) (fun _ => ()) hN
  exact ⟨h5 rfl, by rw [h6, h5 rfl]⟩

/-- Witness for C6 at the claim's example configuration. -/
theorem retryer_behavior_witness :
    1 ≤ (3 : Nat) ∧
      RetryerSpec ⟨3, 1, 2, 0⟩ (fun b : Bool => b) (fun i => decide (i = 2)) :=
  ⟨by decide, retryer_behavior.1 ⟨3, 1, 2, 0⟩ (fun b : Bool => b)
    (fun i => decide (i = 2)) (by decide)⟩

/-! ## C7: résumé of a non-empty failed list -/

theorem getLast?_cons_or {α : Type} (x : α) (l : List α) (z : Option α) :
    ((x :: l).getLast?).or z = (l.getLast?).or (some x) := by
  cases l with
  | nil => simp
  | cons a l =>
    rw [List.getLast?_cons_cons]
    cases h : (a :: l).getLast? with
    | none => exact absurd (List.getLast?_eq_none_iff.mp h) (by simp)
    | some y => simp

theorem resumeLoop_spec (outcome : Nat → Bool) (rest : List RepairStep) :
    ∀ (k clock : Nat) (st up fin : Option Nat) (acc : List RepairStep)
      (cr : Option RepairStep) (sc fc : Int),
    (resumeLoop outcome rest k clock ⟨st, up, fin, rest ++ acc, cr, sc, fc⟩).state.failed_repairs
        = acc ++ expectedFailures outcome rest k clock ∧
    (resumeLoop outcome rest k clock ⟨st, up, fin, rest ++ acc, cr, sc, fc⟩).state.failed_count
        = fc - rest.length + (expectedFailures outcome rest k clock).length ∧
    (resumeLoop outcome rest k clock ⟨st, up, fin, rest ++ acc, cr, sc, fc⟩).state.successful_count
        = sc + numSucc outcome rest k ∧
    (resumeLoop outcome rest k clock ⟨st, up, fin, rest ++ acc, cr, sc, fc⟩).state.started = st ∧
    (resumeLoop outcome rest k clock ⟨st, up, fin, rest ++ acc, cr, sc, fc⟩).state.finished = fin ∧
    (resumeLoop outcome rest k clock ⟨st, up, fin, rest ++ acc, cr, sc, fc⟩).invoked
        = rest.map (fun e => e.cmd) ∧
    (resumeLoop outcome rest k clock ⟨st, up, fin, rest ++ acc, cr, sc, fc⟩).currents
        = stampedEntries rest clock ∧
    (resumeLoop outcome rest k clock ⟨st, up, fin, rest ++ acc, cr, sc, fc⟩).clock
        = clock + 3 * rest.length ∧
    (resumeLoop outcome rest k clock ⟨st, up, fin, rest ++ acc, cr, sc, fc⟩).state.current_repair
        = ((stampedEntries rest clock).getLast?).or cr := by
  induction rest with
  | nil =>
    intro k clock st up fin acc cr sc fc
    simp [resumeLoop, expectedFailures, numSucc, stampedEntries]
  | cons e rest ih =>
    intro k clock st up fin acc cr sc fc
    by_cases hk : outcome k
    · simp only [resumeLoop, write_status, List.cons_append, List.tail_cons, hk, if_true]
      obtain ⟨ih1, ih2, ih3, ih4, ih5, ih6, ih7, ih8, ih9⟩ :=
        ih (k + 1) (clock + 3) st (some (clock + 2)) fin acc
          (some { e with time := clock }) (sc + 1) (fc - 1)
      refine ⟨?_, ?_, ?_, ?_, ?_, ?_, ?_, ?_, ?_⟩
      · rw [ih1]
        simp [expectedFailures, hk]
      · rw [ih2]
        simp only [expectedFailures, hk, if_true, List.nil_append, List.length_cons]
        push_cast
        ring
      · rw [ih3]
        simp [numSucc, hk]
        ring
      · exact ih4
      · exact ih5
      · rw [ih6]
        simp
      · rw [ih7]
        rw [show stampedEntries (e :: rest) clock
            = { e with time := clock } :: stampedEntries rest (clock + 3) from rfl]
      · rw [ih8]
        simp [List.length_cons]
        ring
      · rw [ih9]
        rw [show stampedEntries (e :: rest) clock
            = { e with time := clock } :: stampedEntries rest (clock + 3) from rfl]
        rw [getLast?_cons_or]
    · simp only [resumeLoop, write_status, List.cons_append, List.tail_cons, hk, if_false,
        Bool.false_eq_true]
      obtain ⟨ih1, ih2, ih3, ih4, ih5, ih6, ih7, ih8, ih9⟩ :=
        ih (k + 1) (clock + 3) st (some (clock + 2)) fin
          (acc ++ [{ e with time := clock }])
          (some { e with time := clock }) sc (fc - 1 + 1)
      rw [show (rest ++ acc) ++ [{ e with time := clock }]
          = rest ++ (acc ++ [{ e with time := clock }]) from by simp] at *
      refine ⟨?_, ?_, ?_, ?_, ?_, ?_, ?_, ?_, ?_⟩
      · rw [ih1]
        simp [expectedFailures, hk]
      · rw [ih2]
        simp only [expectedFailures, hk, if_false, Bool.false_eq_true, List.singleton_append,
          List.length_cons, List.length_append]
        push_cast
        ring
      · rw [ih3]
        simp [numSucc, hk]
      · exact ih4
      · exact ih5
      · rw [ih6]
        simp
      · rw [ih7]
        rw [show stampedEntries (e :: rest) clock
            = { e with time := clock } :: stampedEntries rest (clock + 3) from rfl]
      · rw [ih8]
        simp [List.length_cons]
        ring
      · rw [ih9]
        rw [show stampedEntries (e :: rest) clock
            = { e with time := clock } :: stampedEntries rest (clock + 3) from rfl]
        rw [getLast?_cons_or]

/-- C7.  For every ledger with a non-empty failed list, the résumé operation
satisfies `ResumeSpec`: it iterates the snapshot of the original entries in
order, removes one live entry and decrements `failed_count` per iteration,
stamps each entry and sets it as `current_repair`, invokes its stored command
exactly once, increments `successful_count` on success or re-appends the
stamped entry and increments `failed_count` on failure, stamps `finished`,
and returns the number of entries still failing at the end. -/
theorem resume_nonempty_behavior (outcome : Nat → Bool) (clock : Nat)
    (s : RepairStatusState) (h : s.failed_repairs ≠ []) : ResumeSpec outcome clock s := by
  obtain ⟨st, up, fin, frs, cr, sc, fc⟩ := s
  have hpos : frs.length > 0 := List.length_pos.mpr (by simpa using h)
  have hloop := resumeLoop_spec outcome frs 0 (clock + 1) st (some clock) none [] cr sc fc
  rw [List.append_nil] at hloop
  obtain ⟨ih1, ih2, ih3, ih4, ih5, ih6, ih7, ih8, ih9⟩ := hloop
  unfold ResumeSpec repair_failed_ranges
  simp only [write_status]
  rw [if_pos hpos]
  dsimp only
  refine ⟨ih6, ih7, ?_, ?_, ?_, ?_, ?_, ?_, ?_⟩
  · rw [ih1]
    simp
  · rw [ih2]
  · rw [ih3]
  · rw [ih8]
  · exact ih4
  · rfl
  · rw [ih1]
    simp

/-- Witness for C7: résumé of a two-entry ledger where the first command
succeeds and the second fails again. -/
theorem resume_nonempty_behavior_witness :
    sampleLedger.failed_repairs ≠ [] ∧
      ResumeSpec (fun k => decide (k = 0)) 10 sampleLedger :=
  ⟨by decide, resume_nonempty_behavior (fun k => decide (k = 0)) 10 sampleLedger (by decide)⟩

/-! ## C10: the ledger invariant `failed_count = len(failed_repairs)` -/

theorem resumeLoop_writes_inv (outcome : Nat → Bool) (rest : List RepairStep) :
    ∀ (k clock : Nat) (st up fin : Option Nat) (acc : List RepairStep)
      (cr : Option RepairStep) (sc fc : Int),
    fc = ((rest ++ acc).length : Int) →
    ((resumeLoop outcome rest k clock
        ⟨st, up, fin, rest ++ acc, cr, sc, fc⟩).state.failed_count
      = (((resumeLoop outcome rest k clock
        ⟨st, up, fin, rest ++ acc, cr, sc, fc⟩).state.failed_repairs).length : Int)) ∧
    (∀ w ∈ (resumeLoop outcome rest k clock
        ⟨st, up, fin, rest ++ acc, cr, sc, fc⟩).writes,
      w.failed_count = ((w.failed_repairs).length : Int)) := by
  induction rest with
  | nil =>
    intro k clock st up fin acc cr sc fc hfc
    simpa [resumeLoop] using hfc
  | cons e rest ih =>
    intro k clock st up fin acc cr sc fc hfc
    simp only [List.length_cons, List.length_append, Nat.cast_add, Nat.cast_one] at hfc
    by_cases hk : outcome k
    · simp only [resumeLoop, write_status, List.cons_append, List.tail_cons, hk, if_true]
      have hfc' : fc - 1 = ((rest ++ acc).length : Int) := by
        simp only [List.length_append, Nat.cast_add]
        omega
      obtain ⟨ihstate, ihwrites⟩ :=
        ih (k + 1) (clock + 3) st (some (clock + 2)) fin acc
          (some { e with time := clock }) (sc + 1) (fc - 1) hfc'
      refine ⟨ihstate, ?_⟩
      intro w hw
      rcases List.mem_cons.mp hw with rfl | hw
      · simpa using hfc'
      rcases List.mem_cons.mp hw with rfl | hw
      · simpa using hfc'
      · exact ihwrites w hw
    · simp only [resumeLoop, write_status, List.cons_append, List.tail_cons, hk, if_false,
        Bool.false_eq_true]
      have hshape : (rest ++ acc) ++ [{ e with time := clock }]
          = rest ++ (acc ++ [{ e with time := clock }]) := by simp
      rw [hshape]
      have hfc' : fc - 1 + 1
          = ((rest ++ (acc ++ [{ e with time := clock }])).length : Int) := by
        simp only [List.length_append, List.length_cons, List.length_nil, Nat.cast_add,
          Nat.cast_one, Nat.cast_zero]
        omega
      obtain ⟨ihstate, ihwrites⟩ :=
        ih (k + 1) (clock + 3) st (some (clock + 2)) fin
          (acc ++ [{ e with time := clock }])
          (some { e with time := clock }) sc (fc - 1 + 1) hfc'
      refine ⟨ihstate, ?_⟩
      intro w hw
      rcases List.mem_cons.mp hw with rfl | hw
      · simp only [List.length_append, Nat.cast_add]
        omega
      rcases List.mem_cons.mp hw with rfl | hw
      · simpa using hfc'
      · exact ihwrites w hw

theorem resume_preserves_inv (outcome : Nat → Bool) (clock : Nat)
    (s : RepairStatusState) (hinv : s.failed_count = (s.failed_repairs.length : Int)) :
    ((repair_failed_ranges outcome clock s).final.failed_count
      = (((repair_failed_ranges outcome clock s).final.failed_repairs).length : Int)) ∧
    (∀ w ∈ (repair_failed_ranges outcome clock s).writes,
      w.failed_count = ((w.failed_repairs).length : Int)) := by
  obtain ⟨st, up, fin, frs, cr, sc, fc⟩ := s
  by_cases hemp : frs = []
  · subst hemp
    simp [repair_failed_ranges]
    simpa using hinv
  · have hpos : frs.length > 0 := List.length_pos.mpr hemp
    have hfc : fc = ((frs ++ []).length : Int) := by simpa using hinv
    have hloop := resumeLoop_writes_inv outcome frs 0 (clock + 1) st (some clock) none [] cr sc fc hfc
    rw [List.append_nil] at hloop
    obtain ⟨hstate, hwrites⟩ := hloop
    unfold repair_failed_ranges
    simp only [write_status]
    rw [if_pos hpos]
    dsimp only
    refine ⟨hstate, ?_⟩
    intro w hw
    rcases List.mem_cons.mp hw with rfl | hw
    · simpa using hinv
    rcases List.mem_append.mp hw with hw | hw
    · exact hwrites w hw
    · rcases List.mem_singleton.mp hw with rfl
      exact hstate

/-- C10.  Every ledger reachable from a fresh start by the recorded ledger
operations — including every state persisted by a résumé run's `write_status`
calls — satisfies `failed_count = len(failed_repairs)`: start/reset establish
0/empty, `repair_fail` pairs the append with the increment, `repair_start` and
`repair_success` touch neither, and each résumé iteration pairs the removal
with the decrement and the re-append with the increment. -/
theorem ledger_invariant (s : RepairStatusState) (h : LedgerReachable s) :
    s.failed_count = (s.failed_repairs.length : Int) := by
  induction h with
  | init => rfl
  | start s t u _ _ => rfl
  | repair_start s d u _ ih =>
    simpa [RepairStatus.repair_start, RepairStatus.write] using ih
  | repair_fail s d u _ ih =>
    simp [RepairStatus.repair_fail, RepairStatus.write]
    omega
  | repair_success s u _ ih =>
    simpa [RepairStatus.repair_success, RepairStatus.write] using ih
  | finish s t u _ ih =>
    simpa [RepairStatus.finish, RepairStatus.write] using ih
  | resume s outcome clock _ ih =>
    exact (resume_preserves_inv outcome clock s ih).1
  | resume_write s outcome clock w _ hw ih =>
    exact (resume_preserves_inv outcome clock s ih).2 w hw

/-- Witness for C10 on a concrete reachable ledger: fresh start, one recorded
failure. -/
theorem ledger_invariant_witness :
    (RepairStatus.repair_fail (RepairStatus.start RepairStatus.init 0 1) sampleStep1 2).failed_count
      = (((RepairStatus.repair_fail (RepairStatus.start RepairStatus.init 0 1)
          sampleStep1 2).failed_repairs).length : Int) :=
  ledger_invariant _
    (LedgerReachable.repair_fail _ sampleStep1 2
      (LedgerReachable.start _ 0 1 LedgerReachable.init))

/-! ## C5: fixed-width formatting and lexicographic order -/

theorem padDigits_length (w : Nat) : ∀ n : Nat, (padDigits w n).length = w := by
  induction w with
  | zero => intro n; rfl
  | succ w ih => intro n; simp [padDigits, ih]

theorem lex_cons_iff (a b : Char) (as bs : List Char) :
    List.Lex (· < ·) (a :: as) (b :: bs) ↔ a < b ∨ (a = b ∧ List.Lex (· < ·) as bs) := by
  constructor
  · intro h
    cases h with
    | cons h => exact Or.inr ⟨rfl, h⟩
    | rel h => exact Or.inl h
  · rintro (h | ⟨rfl, h⟩)
    · exact List.Lex.rel h
    · exact List.Lex.cons h

theorem digitChar_lt_iff : ∀ a : Nat, a < 10 → ∀ b : Nat, b < 10 →
    (Nat.digitChar a < Nat.digitChar b ↔ a < b) := by decide

theorem digitChar_eq_iff : ∀ a : Nat, a < 10 → ∀ b : Nat, b < 10 →
    (Nat.digitChar a = Nat.digitChar b ↔ a = b) := by decide

theorem nat_lt_iff_div_mod (p n m : Nat) (hp : 0 < p) :
    n < m ↔ (n / p < m / p ∨ (n / p = m / p ∧ n % p < m % p)) := by
  constructor
  · intro h
    rcases Nat.lt_or_ge (n / p) (m / p) with h1 | h1
    · exact Or.inl h1
    · have h4 : n / p = m / p := le_antisymm (Nat.div_le_div_right (le_of_lt h)) h1
      refine Or.inr ⟨h4, ?_⟩
      have hn := Nat.div_add_mod n p
      have hm := Nat.div_add_mod m p
      rw [h4] at hn
      have hlt : p * (m / p) + n % p < p * (m / p) + m % p := by
        rw [hn, hm]
        exact h
      exact Nat.lt_of_add_lt_add_left hlt
  · rintro (h1 | ⟨h1, h2⟩)
    · have e1 : n < p * (n / p) + p :=
        calc n = p * (n / p) + n % p := (Nat.div_add_mod n p).symm
        _ < p * (n / p) + p := Nat.add_lt_add_left (Nat.mod_lt n hp) _
      have e2 : p * (n / p) + p ≤ p * (m / p) := by
        have h3 : p * (n / p + 1) ≤ p * (m / p) :=
          Nat.mul_le_mul le_rfl (Nat.succ_le_of_lt h1)
        calc p * (n / p) + p = p * (n / p + 1) := by ring
        _ ≤ p * (m / p) := h3
      have e3 : p * (m / p) ≤ m :=
        calc p * (m / p) = m / p * p := by ring
        _ ≤ m := Nat.div_mul_le_self m p
      exact lt_of_lt_of_le e1 (le_trans e2 e3)
    · have hn := Nat.div_add_mod n p
      have hm := Nat.div_add_mod m p
      rw [h1] at hn
      calc n = p * (m / p) + n % p := hn.symm
      _ < p * (m / p) + m % p := Nat.add_lt_add_left h2 _
      _ = m := hm

theorem padDigits_lt_iff (w : Nat) : ∀ n m : Nat, n < 10 ^ w → m < 10 ^ w →
    (List.Lex (· < ·) (padDigits w n) (padDigits w m) ↔ n < m) := by
  induction w with
  | zero =>
    intro n m hn hm
    constructor
    · intro h
      cases h
    · intro h
      omega
  | succ w ih =>
    intro n m hn hm
    have hp : 0 < 10 ^ w := Nat.pos_pow_of_pos w (by norm_num)
    have hdn : n / 10 ^ w < 10 := by
      rw [Nat.div_lt_iff_lt_mul hp, show 10 * 10 ^ w = 10 ^ (w + 1) from by ring]
      exact hn
    have hdm : m / 10 ^ w < 10 := by
      rw [Nat.div_lt_iff_lt_mul hp, show 10 * 10 ^ w = 10 ^ (w + 1) from by ring]
      exact hm
    rw [show padDigits (w + 1) n
        = Nat.digitChar (n / 10 ^ w) :: padDigits w (n % 10 ^ w) from rfl,
      show padDigits (w + 1) m
        = Nat.digitChar (m / 10 ^ w) :: padDigits w (m % 10 ^ w) from rfl]
    rw [lex_cons_iff, digitChar_lt_iff _ hdn _ hdm, digitChar_eq_iff _ hdn _ hdm,
      ih (n % 10 ^ w) (m % 10 ^ w) (Nat.mod_lt n hp) (Nat.mod_lt m hp),
      nat_lt_iff_div_mod (10 ^ w) n m hp]

theorem pyZeroPad_lt_iff (w n m : Nat) (hn : n < 10 ^ w) (hm : m < 10 ^ w) :
    (pyZeroPad w n < pyZeroPad w m) ↔ n < m := by
  unfold pyZeroPad
  rw [if_pos hn, if_pos hm]
  exact padDigits_lt_iff w n m hn hm

theorem pyZeroPad_le_iff (w n m : Nat) (hn : n < 10 ^ w) (hm : m < 10 ^ w) :
    (pyZeroPad w n ≤ pyZeroPad w m) ↔ n ≤ m := by
  rw [← not_lt, pyZeroPad_lt_iff w m n hm hn, not_lt]

theorem cons_le_cons_iff_same_head (c : Char) (x y : List Char) :
    ((c :: x : List Char) ≤ c :: y) ↔ x ≤ y := by
  rw [← not_lt, ← not_lt]
  constructor
  · intro h hlt
    exact h (List.Lex.cons hlt)
  · intro h hlt
    rcases (lex_cons_iff c c y x).mp hlt with h1 | ⟨-, h1⟩
    · exact absurd h1 (lt_irrefl c)
    · exact h h1

/-- C5 (amended).  `format` always produces fixed width — 21 characters with
sign in the 64-bit space, 39 without sign in the 127-bit space — and lexical
and numeric order coincide throughout the 127-bit space and on the
non-negative half of the 64-bit space (but not on negative tokens, see the
counterexample). -/
theorem format_fixed_width_and_order : FormatOrderSpec := by
  have e63 : (2 : Int) ^ 63 = 9223372036854775808 := by norm_num
  have e127 : (2 : Int) ^ 127 = 170141183460469231731687303715884105728 := by norm_num
  have e20 : (10 : Nat) ^ 20 = 100000000000000000000 := by norm_num
  have e39 : (10 : Nat) ^ 39 = 1000000000000000000000000000000000000000 := by norm_num
  refine ⟨?_, ?_, ?_, ?_⟩
  · intro v h1 h2
    simp only [RANGE_MIN64, RANGE_MAX64] at h1 h2
    rw [e63] at h1 h2
    have hb : v.natAbs < 100000000000000000000 := by omega
    simp [format64, pyZeroPad, hb, padDigits_length]
  · intro v h1 h2
    simp only [RANGE_MIN127, RANGE_MAX127] at h1 h2
    rw [e127] at h2
    have hb : v.natAbs < 1000000000000000000000000000000000000000 := by omega
    rw [format127, if_neg (by omega)]
    simp [pyZeroPad, hb, padDigits_length]
  · intro a b ha1 ha2 hb1 hb2
    simp only [RANGE_MIN127, RANGE_MAX127] at ha1 ha2 hb1 hb2
    rw [e127] at ha2 hb2
    have hba : a.natAbs < 10 ^ 39 := by
      rw [e39]
      omega
    have hbb : b.natAbs < 10 ^ 39 := by
      rw [e39]
      omega
    rw [format127, format127, if_neg (by omega), if_neg (by omega),
      pyZeroPad_le_iff 39 _ _ hba hbb]
    constructor <;> intro h <;> omega
  · intro a b ha1 ha2 hb1 hb2
    simp only [RANGE_MAX64] at ha2 hb2
    rw [e63] at ha2 hb2
    have hba : a.natAbs < 10 ^ 20 := by
      rw [e20]
      omega
    have hbb : b.natAbs < 10 ^ 20 := by
      rw [e20]
      omega
    rw [format64, format64, if_neg (not_lt.mpr ha1), if_neg (not_lt.mpr hb1),
      cons_le_cons_iff_same_head, pyZeroPad_le_iff 20 _ _ hba hbb]
    constructor <;> intro h <;> omega

/-- Witness for C5 (amended) at concrete tokens. -/
theorem format_fixed_width_and_order_witness :
    (format64 7).length = 21 ∧ ((3 : Int) ≤ 5 ↔ format127 3 ≤ format127 5) :=
  ⟨format_fixed_width_and_order.1 7 (by norm_num [RANGE_MIN64]) (by norm_num [RANGE_MAX64]),
   format_fixed_width_and_order.2.2.1 3 5 (by norm_num [RANGE_MIN127])
     (by norm_num [RANGE_MAX127]) (by norm_num [RANGE_MIN127]) (by norm_num [RANGE_MAX127])⟩
